import Mathlib

/-!
Verification of the StoryComposer2 core document model.

The definitions below are a shallow embedding of the document-model part of
`src/main.rs` (struct `StoryComposerApp` and its methods).  Text is modelled
as a list of UTF-8 bytes (`Txt := List Nat`), matching Rust's byte-offset
string semantics; `VecDeque` stacks are lists whose back is the list's end
(`push_back` appends, `pop_back` takes the last element, `pop_front` drops
the head).  File I/O results are passed in explicitly (`LoadInput`, the
`writeOk` flag of `save_file`), mirroring the points where the Rust code
branches on `Result`.  The one reachable panic in the core — the search
loop's slice `text[start..]` where `start = match_start + 1` can fall inside
a multi-byte character — is modelled by `Option`: `none` is the panic.
-/

set_option linter.unusedVariables false

namespace StoryComposer

/-- Text as a list of UTF-8 bytes (Rust `String` / `&str` under byte offsets). -/
abbrev Txt := List Nat

/-- `const MAX_PLOTS: usize = 1024;` -/
def MAX_PLOTS : Nat := 1024

/-- `const MAX_UNDO_HISTORY: usize = 100;` -/
def MAX_UNDO_HISTORY : Nat := 100

/-- `struct PlotFragment { id: usize, text: String }` -/
structure PlotFragment where
  id : Nat
  text : Txt
deriving DecidableEq

/-- `struct SaveData { plots: Vec<PlotFragment>, composed_text: String }` -/
structure SaveData where
  plots : List PlotFragment
  composed_text : Txt
deriving DecidableEq

/-- `struct AppState { plots: Vec<PlotFragment>, composed_text: String }`
(the undo/redo snapshot type). -/
structure AppState where
  plots : List PlotFragment
  composed_text : Txt
deriving DecidableEq

/-- `enum SearchLocation { Plot, ComposedText }` -/
inductive SearchLocation where
  | Plot
  | ComposedText
deriving DecidableEq

/-- `struct SearchResult { location, plot_index, start, end }` (the Rust field
`end` is a Lean keyword, rendered here as `endPos`). -/
structure SearchResult where
  location : SearchLocation
  plot_index : Option Nat
  start : Nat
  endPos : Nat
deriving DecidableEq

/-- The document-model fields of `struct StoryComposerApp` (UI-only fields such
as dialog visibility flags, pending actions and font settings are omitted:
no claim mentions them and no core method reads them). -/
structure App where
  plots : List PlotFragment
  composed_text : Txt
  next_id : Nat
  current_file_path : Option Txt
  undo_stack : List AppState
  redo_stack : List AppState
  search_text : Txt
  replace_text : Txt
  search_results : List SearchResult
  current_search_index : Nat
  is_dirty : Bool
deriving DecidableEq

/-- `StoryComposerApp::new`: one empty fragment with id 0, `next_id = 1`,
everything else empty/clean. -/
def newApp : App where
  plots := [⟨0, []⟩]
  composed_text := []
  next_id := 1
  current_file_path := none
  undo_stack := []
  redo_stack := []
  search_text := []
  replace_text := []
  search_results := []
  current_search_index := 0
  is_dirty := false

/-- `push_back` followed by `if len > MAX_UNDO_HISTORY { pop_front }`, the
stack-maintenance step shared by `save_state_for_undo`, `undo` and `redo`. -/
def pushTrim (st : List AppState) (a : AppState) : List AppState :=
  if (st ++ [a]).length > MAX_UNDO_HISTORY then (st ++ [a]).tail else st ++ [a]

/-- `fn save_state_for_undo(&mut self)`. -/
def save_state_for_undo (s : App) : App :=
  { s with
    undo_stack := pushTrim s.undo_stack ⟨s.plots, s.composed_text⟩
    redo_stack := []
    is_dirty := true }

/-- `fn undo(&mut self)`. -/
def undo (s : App) : App :=
  match s.undo_stack.getLast? with
  | none => s
  | some st =>
    { s with
      undo_stack := s.undo_stack.dropLast
      redo_stack := pushTrim s.redo_stack ⟨s.plots, s.composed_text⟩
      plots := st.plots
      composed_text := st.composed_text }

/-- `fn redo(&mut self)`. -/
def redo (s : App) : App :=
  match s.redo_stack.getLast? with
  | none => s
  | some st =>
    { s with
      redo_stack := s.redo_stack.dropLast
      undo_stack := pushTrim s.undo_stack ⟨s.plots, s.composed_text⟩
      plots := st.plots
      composed_text := st.composed_text }

/-- The literal separator `"\n\n---\n\n"` as UTF-8 bytes. -/
def SEPARATOR : Txt := [10, 10, 45, 45, 45, 10, 10]

/-- `fn compose(&mut self)`: snapshot, then join the fragment texts with the
separator (Rust `Vec::join` is `List.intercalate`). -/
def compose (s : App) : App :=
  let s := save_state_for_undo s
  { s with composed_text := List.intercalate SEPARATOR (s.plots.map (·.text)) }

/-- `fn new_document(&mut self)`. -/
def new_document (s : App) : App :=
  let s := save_state_for_undo s
  { s with
    plots := [⟨0, []⟩]
    composed_text := []
    next_id := 1
    current_file_path := none
    undo_stack := []
    redo_stack := []
    is_dirty := false }

/-- `fn add_plot_after(&mut self, index: usize)`.  `Vec::insert(index + 1, _)`
is `List.insertIdx (index + 1)`; the Rust call panics when `index + 1` exceeds
the length while `insertIdx` leaves the list unchanged, a case the UI never
reaches (it only passes indices of existing fragments). -/
def add_plot_after (index : Nat) (s : App) : App :=
  if s.plots.length ≥ MAX_PLOTS then s
  else
    let s := save_state_for_undo s
    { s with
      plots := s.plots.insertIdx (index + 1) ⟨s.next_id, []⟩
      next_id := s.next_id + 1 }

/-- `fn remove_plot(&mut self, index: usize)`.  `Vec::remove` is
`List.eraseIdx` (again, out-of-range panics in Rust, is the identity here,
and is unreachable from the UI). -/
def remove_plot (index : Nat) (s : App) : App :=
  if s.plots.length ≤ 1 then s
  else
    let s := save_state_for_undo s
    { s with plots := s.plots.eraseIdx index }

/-- Rust `slice::swap(i, j)` on a list (identity when an index is out of
range, where Rust would panic; unreachable from the UI's bounds checks). -/
def swapIdx (l : List PlotFragment) (i j : Nat) : List PlotFragment :=
  match l[i]?, l[j]? with
  | some a, some b => (l.set i b).set j a
  | _, _ => l

/-- `fn move_plot_up(&mut self, index: usize)`. -/
def move_plot_up (index : Nat) (s : App) : App :=
  if index = 0 then s
  else
    let s := save_state_for_undo s
    { s with plots := swapIdx s.plots index (index - 1) }

/-- `fn move_plot_down(&mut self, index: usize)`. -/
def move_plot_down (index : Nat) (s : App) : App :=
  if index ≥ s.plots.length - 1 then s
  else
    let s := save_state_for_undo s
    { s with plots := swapIdx s.plots index (index + 1) }

/-- `fn save_file(&mut self, path) -> Result<(), String>`: the outcome of
serialisation-plus-`fs::write` is passed in as `writeOk`; on success the dirty
flag is cleared, on failure the whole state is returned untouched (the Rust
`?` returns before `self.is_dirty = false`). -/
def save_file (writeOk : Bool) (s : App) : Except Txt Unit × App :=
  if writeOk then (Except.ok (), { s with is_dirty := false })
  else (Except.error [], s)

/-- Outcome of `fs::read_to_string` followed by `serde_json::from_str` inside
`load_file`: an I/O failure, a deserialisation failure (each carrying the
stringified error), or a successfully parsed `SaveData`. -/
inductive LoadInput where
  | ioError (msg : Txt)
  | deserError (msg : Txt)
  | ok (d : SaveData)
deriving DecidableEq

/-- `fn load_file(&mut self, path) -> Result<(), String>`.  Both `?` early
returns happen before any mutation; on success the state is snapshotted and
`next_id` is recomputed as `plots.iter().map(|p| p.id).max().unwrap_or(0) + 1`
(over the freshly loaded plots).  For `Nat` ids, `max().unwrap_or(0)` is
`foldr Nat.max 0`. -/
def load_file (input : LoadInput) (s : App) : Except Txt Unit × App :=
  match input with
  | .ioError m => (Except.error m, s)
  | .deserError m => (Except.error m, s)
  | .ok d =>
    let s := save_state_for_undo s
    (Except.ok (),
      { s with
        plots := d.plots
        composed_text := d.composed_text
        next_id := ((d.plots.map (·.id)).foldr Nat.max 0) + 1 })

/-- Rust `str::find(needle)`: byte index of the first occurrence of `needle`,
`some 0` for the empty needle, `none` when absent. -/
def findSub (needle : Txt) : Txt → Option Nat
  | [] => if needle.isPrefixOf [] then some 0 else none
  | a :: t =>
    if needle.isPrefixOf (a :: t) then some 0
    else (findSub needle t).map (· + 1)

/-- Rust `str::is_char_boundary(index)`: 0 is a boundary, an out-of-range
index is a boundary only when it equals the length, and an in-range index is
a boundary when its byte is not a UTF-8 continuation byte (the Rust source's
`(b as i8) >= -0x40`, i.e. `b < 0x80 ∨ 0xC0 ≤ b`).  Rust's string range
indexing `text[start..]` panics when `start` fails this check. -/
def is_char_boundary (hay : Txt) (index : Nat) : Bool :=
  if index = 0 then true
  else
    match hay[index]? with
    | none => index == hay.length
    | some b => decide (b < 128) || decide (192 ≤ b)

/-- The search loop of `fn search`: repeatedly `find` in `text[start..]`,
record `actual_start = start + pos`, resume from `start = actual_start + 1`.
The next iteration's slice `text[start..]` PANICS when `actual_start + 1` is
not a char boundary (needles whose first character is multi-byte put a
continuation byte there); the panic is modelled as `none`, a completed loop
as `some` of the recorded match starts.  The state is carried as the
remaining suffix `hay` plus the absolute offset `base` of its first byte:
the boundary check on the suffix at relative index `p + 1 ≥ 1` inspects the
same byte (and the same end-of-string case) as Rust's check on the full text
at `actual_start + 1`.  `hay.drop (p + 1)` is written `t.drop p` on the
`a :: t` shape so the recursion visibly shrinks; the `[]`-with-match branch
is unreachable for the non-empty needles `search` feeds in. -/
def occsFrom (needle : Txt) : Txt → Nat → Option (List Nat)
  | hay, base =>
    match findSub needle hay with
    | none => some []
    | some p =>
      match hay with
      | [] => some []
      | a :: t =>
        if is_char_boundary (a :: t) (p + 1) then
          (occsFrom needle (t.drop p) (base + p + 1)).map (fun rest => (base + p) :: rest)
        else none
  termination_by hay _ => hay.length
  decreasing_by
    simp only [List.length_drop, List.length_cons]
    omega

/-- The per-fragment loops of `fn search`, in document order, producing
`[start, start + needle.len)` results tagged with the fragment's index;
`none` if any fragment's scan panics (the program dies there, so later
fragments are never scanned). -/
def searchPlots (needle : Txt) : List (Nat × PlotFragment) → Option (List SearchResult)
  | [] => some []
  | ip :: rest =>
    match occsFrom needle ip.2.text 0 with
    | none => none
    | some occs =>
      match searchPlots needle rest with
      | none => none
      | some rs =>
        some ((occs.map fun st =>
          { location := SearchLocation.Plot
            plot_index := some ip.1
            start := st
            endPos := st + needle.length }) ++ rs)

/-- `fn search(&mut self)`: clear results and reset the index, return early on
an empty needle, otherwise scan every plot in order and then the composed
text.  `none` models the reachable panic of the scan loop's string slicing
(the process aborts, so there is no resulting state). -/
def search (s : App) : Option App :=
  let s := { s with search_results := ([] : List SearchResult), current_search_index := 0 }
  if s.search_text = [] then some s
  else
    match searchPlots s.search_text s.plots.enum with
    | none => none
    | some plotResults =>
      match occsFrom s.search_text s.composed_text 0 with
      | none => none
      | some composedOccs =>
        some { s with search_results := plotResults ++ composedOccs.map (fun st =>
          { location := SearchLocation.ComposedText
            plot_index := none
            start := st
            endPos := st + s.search_text.length }) }

/-- Rust `str::replace(needle, repl)`: non-overlapping left-to-right
replacement — copy up to the first match, emit `repl`, continue after the
match.  `hay.drop (p + needle.length)` is written on the `a :: t` shape as
`t.drop (p + needle.length - 1)` (equal whenever `needle ≠ []`, the only way
a match is found in a shorter suffix) so the recursion visibly shrinks. -/
def replaceSub (needle repl : Txt) : Txt → Txt
  | [] =>
    match findSub needle [] with
    | none => []
    | some _ => repl
  | a :: t =>
    match findSub needle (a :: t) with
    | none => a :: t
    | some p => (a :: t).take p ++ repl ++ replaceSub needle repl (t.drop (p + needle.length - 1))
  termination_by hay => hay.length
  decreasing_by
    simp only [List.length_drop, List.length_cons]
    omega

/-- `fn replace_all(&mut self)`: early return on empty needle, otherwise
snapshot, replace in every plot's text and in the composed text, clear the
stored search results. -/
def replace_all (s : App) : App :=
  if s.search_text = [] then s
  else
    let s := save_state_for_undo s
    { s with
      plots := s.plots.map (fun p => { p with text := replaceSub s.search_text s.replace_text p.text })
      composed_text := replaceSub s.search_text s.replace_text s.composed_text
      search_results := ([] : List SearchResult) }

/-- The core mutating command surface (the commands named by the spec's
invariant claims).  `replace_all` carries the needle and replacement the user
typed into the dialog fields (`search_text` / `replace_text`) before clicking
"replace all"; `load_file` carries the I/O outcome for that invocation. -/
inductive Command where
  | add_plot_after (index : Nat)
  | remove_plot (index : Nat)
  | move_plot_up (index : Nat)
  | move_plot_down (index : Nat)
  | compose
  | replace_all (needle repl : Txt)
  | undo
  | redo
  | new_document
  | load_file (input : LoadInput)
deriving DecidableEq

/-- Dispatch a command to the corresponding method of the embedding. -/
def Command.apply : Command → App → App
  | .add_plot_after i, s => StoryComposer.add_plot_after i s
  | .remove_plot i, s => StoryComposer.remove_plot i s
  | .move_plot_up i, s => StoryComposer.move_plot_up i s
  | .move_plot_down i, s => StoryComposer.move_plot_down i s
  | .compose, s => StoryComposer.compose s
  | .replace_all n r, s =>
      StoryComposer.replace_all { s with search_text := n, replace_text := r }
  | .undo, s => StoryComposer.undo s
  | .redo, s => StoryComposer.redo s
  | .new_document, s => StoryComposer.new_document s
  | .load_file inp, s => (StoryComposer.load_file inp s).2

/-- Run a sequence of commands from a starting state. -/
def run (s : App) (cs : List Command) : App :=
  cs.foldl (fun s c => c.apply s) s

/-- The guard under which a command takes its state-changing path, i.e.
reaches `save_state_for_undo` (cap not hit, non-boundary move, non-empty
needle, successful load); false for `undo`/`redo`/`new_document`, which the
undo-round-trip and dirty-flag claims treat separately. -/
def changesState : Command → App → Prop
  | .add_plot_after _, s => s.plots.length < MAX_PLOTS
  | .remove_plot _, s => 1 < s.plots.length
  | .move_plot_up i, _ => i ≠ 0
  | .move_plot_down i, s => i < s.plots.length - 1
  | .compose, _ => True
  | .replace_all n _, _ => n ≠ []
  | .undo, _ => False
  | .redo, _ => False
  | .new_document, _ => False
  | .load_file (.ok _), _ => True
  | .load_file _, _ => False

/-- The commands that push an undo snapshot via `save_state_for_undo`: the
state-changing commands plus `new_document` (which snapshots before wiping
the history). -/
def pushesSnapshot : Command → App → Prop
  | .new_document, _ => True
  | c, s => changesState c s

/-- A command whose load (if any) carries at least one fragment. -/
def Command.loadOk : Command → Prop
  | .load_file (.ok d) => d.plots ≠ []
  | _ => True

/-- A command that is not a `load_file` at all. -/
def Command.noLoad : Command → Prop
  | .load_file _ => False
  | _ => True

/-! ### Helper lemmas about the stack-maintenance step -/

theorem pushTrim_getLast (l : List AppState) (a : AppState) :
    (pushTrim l a).getLast? = some a := by
  unfold pushTrim
  split
  · rename_i h
    cases l with
    | nil => simp [MAX_UNDO_HISTORY] at h
    | cons b t => simp [List.getLast?_concat]
  · exact List.getLast?_concat _

theorem pushTrim_nil (a : AppState) : pushTrim [] a = [a] := by
  simp [pushTrim, MAX_UNDO_HISTORY]

theorem mem_pushTrim {l : List AppState} {a x : AppState} (h : x ∈ pushTrim l a) :
    x ∈ l ∨ x = a := by
  unfold pushTrim at h
  split at h
  · have hx : x ∈ l ++ [a] := (List.tail_sublist _).mem h
    simpa using hx
  · simpa using h

theorem undo_eq_none {s : App} (h : s.undo_stack.getLast? = none) : undo s = s := by
  unfold undo; rw [h]

theorem undo_eq_some {s : App} {st : AppState} (h : s.undo_stack.getLast? = some st) :
    undo s =
      { s with
        undo_stack := s.undo_stack.dropLast
        redo_stack := pushTrim s.redo_stack ⟨s.plots, s.composed_text⟩
        plots := st.plots
        composed_text := st.composed_text } := by
  unfold undo; rw [h]

theorem redo_eq_none {s : App} (h : s.redo_stack.getLast? = none) : redo s = s := by
  unfold redo; rw [h]

theorem redo_eq_some {s : App} {st : AppState} (h : s.redo_stack.getLast? = some st) :
    redo s =
      { s with
        redo_stack := s.redo_stack.dropLast
        undo_stack := pushTrim s.undo_stack ⟨s.plots, s.composed_text⟩
        plots := st.plots
        composed_text := st.composed_text } := by
  unfold redo; rw [h]

/-- The undo/redo round trip after any operation that snapshotted the previous
state `s`, cleared the redo stack, and then only touched fields other than the
two stacks: `undo` brings back `s`'s pair and `redo` brings back the
operation's result pair. -/
theorem undo_redo_of_snapshot (s s' : App)
    (hu : s'.undo_stack = pushTrim s.undo_stack ⟨s.plots, s.composed_text⟩)
    (hr : s'.redo_stack = []) :
    (undo s').plots = s.plots ∧ (undo s').composed_text = s.composed_text ∧
    (redo (undo s')).plots = s'.plots ∧ (redo (undo s')).composed_text = s'.composed_text := by
  have h1 : s'.undo_stack.getLast? = some ⟨s.plots, s.composed_text⟩ := by
    rw [hu]; exact pushTrim_getLast _ _
  have h2 := undo_eq_some h1
  have h3 : (undo s').redo_stack = [⟨s'.plots, s'.composed_text⟩] := by
    rw [h2]; simp only [hr]; exact pushTrim_nil _
  have h4 : (undo s').redo_stack.getLast? = some ⟨s'.plots, s'.composed_text⟩ := by
    rw [h3]; rfl
  have h5 := redo_eq_some h4
  refine ⟨by rw [h2], by rw [h2], by rw [h5], by rw [h5]⟩

/-! ### Helper lemmas about the substring scanner -/

theorem bool_eq_false {b : Bool} (h : ¬ b = true) : b = false := by
  cases b with
  | false => rfl
  | true => exact absurd rfl h

theorem isPrefixOf_nil_false {n : Txt} (hn : n ≠ []) : n.isPrefixOf ([] : Txt) = false := by
  cases n with
  | nil => exact absurd rfl hn
  | cons a t => rfl

theorem findSub_nil {n : Txt} (hn : n ≠ []) : findSub n [] = none := by
  simp [findSub, isPrefixOf_nil_false hn]

theorem findSub_found {n : Txt} :
    ∀ {hay : Txt} {p : Nat}, findSub n hay = some p → n.isPrefixOf (hay.drop p) = true := by
  intro hay
  induction hay with
  | nil =>
    intro p h
    simp only [findSub] at h
    split at h
    · rename_i hp; cases h; exact hp
    · cases h
  | cons a t ih =>
    intro p h
    simp only [findSub] at h
    split at h
    · rename_i hp; cases h; exact hp
    · cases hq : findSub n t with
      | none => rw [hq] at h; cases h
      | some q =>
        rw [hq] at h
        simp only [Option.map_some', Option.some.injEq] at h
        subst h
        simpa [List.drop_succ_cons] using ih hq

theorem findSub_min {n : Txt} :
    ∀ {hay : Txt} {p : Nat}, findSub n hay = some p →
      ∀ i, i < p → n.isPrefixOf (hay.drop i) = false := by
  intro hay
  induction hay with
  | nil =>
    intro p h i hi
    simp only [findSub] at h
    split at h
    · cases h; omega
    · cases h
  | cons a t ih =>
    intro p h i hi
    simp only [findSub] at h
    split at h
    · cases h; omega
    · rename_i hp
      cases hq : findSub n t with
      | none => rw [hq] at h; cases h
      | some q =>
        rw [hq] at h
        simp only [Option.map_some', Option.some.injEq] at h
        subst h
        cases i with
        | zero => exact bool_eq_false hp
        | succ j => simpa [List.drop_succ_cons] using ih hq j (by omega)

theorem findSub_none {n : Txt} :
    ∀ {hay : Txt}, findSub n hay = none → ∀ i, n.isPrefixOf (hay.drop i) = false := by
  intro hay
  induction hay with
  | nil =>
    intro h i
    simp only [findSub] at h
    split at h
    · cases h
    · rename_i hp; rw [List.drop_nil]; exact bool_eq_false hp
  | cons a t ih =>
    intro h i
    simp only [findSub] at h
    split at h
    · cases h
    · rename_i hp
      cases hq : findSub n t with
      | none =>
        cases i with
        | zero => exact bool_eq_false hp
        | succ j => simpa [List.drop_succ_cons] using ih hq j
      | some q => rw [hq] at h; cases h

theorem occsFrom_find_none {n hay : Txt} {base : Nat} (h : findSub n hay = none) :
    occsFrom n hay base = some [] := by
  rw [occsFrom, h]

theorem occsFrom_find_some {n : Txt} {a : Nat} {t : Txt} {base p : Nat}
    (h : findSub n (a :: t) = some p) :
    occsFrom n (a :: t) base =
      if is_char_boundary (a :: t) (p + 1) then
        (occsFrom n (t.drop p) (base + p + 1)).map (fun rest => (base + p) :: rest)
      else none := by
  rw [occsFrom, h]

/-- When the search loop of `occsFrom` completes without panicking, it
reports a position `j` exactly when the needle occurs at byte offset
`j - base` of the suffix it is scanning: the resume-at-`match_start + 1`
policy misses no occurrence, overlapping ones included. -/
theorem occsFrom_mem {n : Txt} (hn : n ≠ []) :
    ∀ (fuel : Nat) (hay : Txt), hay.length ≤ fuel → ∀ (base j : Nat) (l : List Nat),
      occsFrom n hay base = some l →
      (j ∈ l ↔ ∃ i, j = base + i ∧ n.isPrefixOf (hay.drop i) = true) := by
  intro fuel
  induction fuel with
  | zero =>
    intro hay hlen base j l hl
    have hnil : hay = [] := List.length_eq_zero.mp (Nat.le_zero.mp hlen)
    subst hnil
    rw [occsFrom_find_none (findSub_nil hn)] at hl
    injection hl with hl'
    subst hl'
    simp [isPrefixOf_nil_false hn]
  | succ f ih =>
    intro hay hlen base j l hl
    cases hay with
    | nil =>
      rw [occsFrom_find_none (findSub_nil hn)] at hl
      injection hl with hl'
      subst hl'
      simp [isPrefixOf_nil_false hn]
    | cons a t =>
      cases hf : findSub n (a :: t) with
      | none =>
        rw [occsFrom_find_none hf] at hl
        injection hl with hl'
        subst hl'
        simp only [List.not_mem_nil, false_iff, not_exists, not_and]
        intro i _
        simp [findSub_none hf i]
      | some p =>
        rw [occsFrom_find_some hf] at hl
        split at hl
        · cases hrec : occsFrom n (t.drop p) (base + p + 1) with
          | none => rw [hrec] at hl; simp at hl
          | some rest =>
            rw [hrec, Option.map_some'] at hl
            injection hl with hl'
            subst hl'
            have hlen' : (t.drop p).length ≤ f := by
              simp only [List.length_drop]
              simp only [List.length_cons] at hlen
              omega
            have hrecmem := ih (t.drop p) hlen' (base + p + 1) j rest hrec
            have hdrop : ∀ i, (t.drop p).drop i = t.drop (p + i) := by
              intro i; rw [List.drop_drop]
            constructor
            · intro hj
              rcases List.mem_cons.mp hj with h1 | h2
              · exact ⟨p, h1, findSub_found hf⟩
              · rcases hrecmem.mp h2 with ⟨i, hji, hpre⟩
                refine ⟨p + 1 + i, by omega, ?_⟩
                have he : p + 1 + i = (p + i) + 1 := by omega
                rw [he, List.drop_succ_cons, ← hdrop]
                exact hpre
            · rintro ⟨i, rfl, hpre⟩
              rcases Nat.lt_trichotomy i p with hlt | heq | hgt
              · rw [findSub_min hf i hlt] at hpre; cases hpre
              · subst heq; exact List.mem_cons_self _ _
              · refine List.mem_cons.mpr (Or.inr ?_)
                refine hrecmem.mpr ⟨i - p - 1, by omega, ?_⟩
                rw [hdrop]
                have he : p + (i - p - 1) = i - 1 := by omega
                rw [he]
                have he2 : i = (i - 1) + 1 := by omega
                rw [he2, List.drop_succ_cons] at hpre
                exact hpre
        · exact Option.noConfusion hl

/-! ### Helper lemmas about the fragment-list operations -/

theorem mem_insertIdx_or {p a : PlotFragment} :
    ∀ (n : Nat) (l : List PlotFragment), p ∈ l.insertIdx n a → p = a ∨ p ∈ l := by
  intro n
  induction n with
  | zero =>
    intro l h
    rw [List.insertIdx_zero] at h
    simpa using List.mem_cons.mp h
  | succ m ih =>
    intro l h
    cases l with
    | nil => rw [List.insertIdx_succ_nil] at h; cases h
    | cons b t =>
      rw [List.insertIdx_succ_cons] at h
      rcases List.mem_cons.mp h with h1 | h2
      · exact Or.inr (h1 ▸ List.mem_cons_self _ _)
      · rcases ih t h2 with h3 | h4
        · exact Or.inl h3
        · exact Or.inr (List.mem_cons_of_mem _ h4)

theorem insertIdx_ne_nil {a : PlotFragment} (n : Nat) (l : List PlotFragment)
    (h : l ≠ []) : l.insertIdx n a ≠ [] := by
  cases l with
  | nil => exact absurd rfl h
  | cons b t =>
    cases n with
    | zero => rw [List.insertIdx_zero]; exact List.cons_ne_nil _ _
    | succ m => rw [List.insertIdx_succ_cons]; exact List.cons_ne_nil _ _

theorem eraseIdx_ne_nil (l : List PlotFragment) (n : Nat) (h : 2 ≤ l.length) :
    l.eraseIdx n ≠ [] := by
  cases l with
  | nil => simp at h
  | cons a t =>
    cases n with
    | zero =>
      simp only [List.eraseIdx_cons_zero]
      simp only [List.length_cons] at h
      exact List.ne_nil_of_length_pos (by omega)
    | succ m => simp only [List.eraseIdx_cons_succ]; exact List.cons_ne_nil _ _

theorem mem_swapIdx {p : PlotFragment} {l : List PlotFragment} {i j : Nat}
    (h : p ∈ swapIdx l i j) : p ∈ l := by
  unfold swapIdx at h
  split at h
  · rename_i a b hia hjb
    rcases List.mem_or_eq_of_mem_set h with h1 | h2
    · rcases List.mem_or_eq_of_mem_set h1 with h3 | h4
      · exact h3
      · exact h4 ▸ List.getElem?_mem hjb
    · exact h2 ▸ List.getElem?_mem hia
  · exact h

theorem swapIdx_length (l : List PlotFragment) (i j : Nat) :
    (swapIdx l i j).length = l.length := by
  unfold swapIdx
  split <;> simp

/-! ### The non-empty-fragment-list invariant (claim C1) -/

/-- The fragment list and every snapshot on either history stack are
non-empty. -/
def NInv (s : App) : Prop :=
  s.plots ≠ [] ∧ (∀ st ∈ s.undo_stack, st.plots ≠ []) ∧
    (∀ st ∈ s.redo_stack, st.plots ≠ [])

theorem NInv_newApp : NInv newApp := by
  refine ⟨by simp [newApp], ?_, ?_⟩ <;> simp [newApp]

theorem NInv_save (s : App) (h : NInv s) : NInv (save_state_for_undo s) := by
  obtain ⟨h1, h2, h3⟩ := h
  refine ⟨h1, ?_, ?_⟩
  · intro st hst
    rcases mem_pushTrim hst with hm | he
    · exact h2 st hm
    · rw [he]; exact h1
  · intro st hst; simp [save_state_for_undo] at hst

theorem NInv_apply (c : Command) (hc : c.loadOk) (s : App) (h : NInv s) :
    NInv (c.apply s) := by
  obtain ⟨h1, h2, h3⟩ := h
  cases c with
  | add_plot_after i =>
    simp only [Command.apply, add_plot_after]
    split
    · exact ⟨h1, h2, h3⟩
    · obtain ⟨g1, g2, g3⟩ := NInv_save s ⟨h1, h2, h3⟩
      exact ⟨insertIdx_ne_nil _ _ g1, g2, g3⟩
  | remove_plot i =>
    simp only [Command.apply, remove_plot]
    split
    · exact ⟨h1, h2, h3⟩
    · rename_i hlen
      obtain ⟨g1, g2, g3⟩ := NInv_save s ⟨h1, h2, h3⟩
      refine ⟨eraseIdx_ne_nil _ _ ?_, g2, g3⟩
      change 2 ≤ s.plots.length
      omega
  | move_plot_up i =>
    simp only [Command.apply, move_plot_up]
    split
    · exact ⟨h1, h2, h3⟩
    · refine ⟨?_, (NInv_save s ⟨h1, h2, h3⟩).2.1, (NInv_save s ⟨h1, h2, h3⟩).2.2⟩
      intro hnil
      change swapIdx s.plots i (i - 1) = [] at hnil
      have hl := congrArg List.length hnil
      rw [swapIdx_length] at hl
      exact h1 (List.length_eq_zero.mp (by simpa using hl))
  | move_plot_down i =>
    simp only [Command.apply, move_plot_down]
    split
    · exact ⟨h1, h2, h3⟩
    · refine ⟨?_, (NInv_save s ⟨h1, h2, h3⟩).2.1, (NInv_save s ⟨h1, h2, h3⟩).2.2⟩
      intro hnil
      change swapIdx s.plots i (i + 1) = [] at hnil
      have hl := congrArg List.length hnil
      rw [swapIdx_length] at hl
      exact h1 (List.length_eq_zero.mp (by simpa using hl))
  | compose =>
    obtain ⟨g1, g2, g3⟩ := NInv_save s ⟨h1, h2, h3⟩
    exact ⟨g1, g2, g3⟩
  | replace_all n r =>
    simp only [Command.apply, replace_all]
    split
    · exact ⟨h1, h2, h3⟩
    · obtain ⟨g1, g2, g3⟩ :=
        NInv_save { s with search_text := n, replace_text := r } ⟨h1, h2, h3⟩
      refine ⟨?_, g2, g3⟩
      simpa using g1
  | undo =>
    simp only [Command.apply]
    cases hu : s.undo_stack.getLast? with
    | none => rw [undo_eq_none hu]; exact ⟨h1, h2, h3⟩
    | some st =>
      rw [undo_eq_some hu]
      refine ⟨h2 st (List.mem_of_getLast?_eq_some hu), ?_, ?_⟩
      · intro x hx; exact h2 x ((List.dropLast_sublist _).mem hx)
      · intro x hx
        rcases mem_pushTrim hx with hm | he
        · exact h3 x hm
        · rw [he]; exact h1
  | redo =>
    simp only [Command.apply]
    cases hu : s.redo_stack.getLast? with
    | none => rw [redo_eq_none hu]; exact ⟨h1, h2, h3⟩
    | some st =>
      rw [redo_eq_some hu]
      refine ⟨h3 st (List.mem_of_getLast?_eq_some hu), ?_, ?_⟩
      · intro x hx
        rcases mem_pushTrim hx with hm | he
        · exact h2 x hm
        · rw [he]; exact h1
      · intro x hx; exact h3 x ((List.dropLast_sublist _).mem hx)
  | new_document =>
    refine ⟨by simp [Command.apply, new_document, save_state_for_undo], ?_, ?_⟩ <;>
      simp [Command.apply, new_document, save_state_for_undo]
  | load_file inp =>
    cases inp with
    | ioError m => exact ⟨h1, h2, h3⟩
    | deserError m => exact ⟨h1, h2, h3⟩
    | ok d =>
      obtain ⟨g1, g2, g3⟩ := NInv_save s ⟨h1, h2, h3⟩
      exact ⟨hc, g2, g3⟩

theorem NInv_run (cs : List Command) :
    ∀ (s : App), (∀ c ∈ cs, c.loadOk) → NInv s → NInv (run s cs) := by
  induction cs with
  | nil => intro s _ h; exact h
  | cons c cs ih =>
    intro s hcs h
    have h1 : NInv (c.apply s) := NInv_apply c (hcs c (List.mem_cons_self _ _)) s h
    exact ih (c.apply s) (fun d hd => hcs d (List.mem_cons_of_mem _ hd)) h1

/-! ### The id-bound invariant (claim C2) -/

/-- `next_id` strictly bounds the id of every live fragment and of every
fragment stored in a history snapshot. -/
def IdInv (s : App) : Prop :=
  (∀ p ∈ s.plots, p.id < s.next_id) ∧
    (∀ st ∈ s.undo_stack, ∀ p ∈ st.plots, p.id < s.next_id) ∧
    (∀ st ∈ s.redo_stack, ∀ p ∈ st.plots, p.id < s.next_id)

theorem IdInv_newApp : IdInv newApp := by
  refine ⟨?_, ?_, ?_⟩ <;> simp [newApp]

theorem IdInv_apply (c : Command) (hc : c.noLoad) (s : App) (h : IdInv s) :
    IdInv (c.apply s) := by
  obtain ⟨h1, h2, h3⟩ := h
  cases c with
  | add_plot_after i =>
    simp only [Command.apply, add_plot_after]
    split
    · exact ⟨h1, h2, h3⟩
    · refine ⟨?_, ?_, ?_⟩
      · intro p hp
        change p ∈ s.plots.insertIdx (i + 1) ⟨s.next_id, []⟩ at hp
        change p.id < s.next_id + 1
        rcases mem_insertIdx_or _ _ hp with rfl | hm
        · exact Nat.lt_succ_self _
        · exact Nat.lt_succ_of_lt (h1 p hm)
      · intro st hst p hp
        change st ∈ pushTrim s.undo_stack ⟨s.plots, s.composed_text⟩ at hst
        change p.id < s.next_id + 1
        rcases mem_pushTrim hst with hm | he
        · exact Nat.lt_succ_of_lt (h2 st hm p hp)
        · rw [he] at hp; exact Nat.lt_succ_of_lt (h1 p hp)
      · intro st hst
        change st ∈ ([] : List AppState) at hst
        cases hst
  | remove_plot i =>
    simp only [Command.apply, remove_plot]
    split
    · exact ⟨h1, h2, h3⟩
    · refine ⟨?_, ?_, ?_⟩
      · intro p hp
        change p ∈ s.plots.eraseIdx i at hp
        exact h1 p (List.mem_of_mem_eraseIdx hp)
      · intro st hst p hp
        change st ∈ pushTrim s.undo_stack ⟨s.plots, s.composed_text⟩ at hst
        rcases mem_pushTrim hst with hm | he
        · exact h2 st hm p hp
        · rw [he] at hp; exact h1 p hp
      · intro st hst
        change st ∈ ([] : List AppState) at hst
        cases hst
  | move_plot_up i =>
    simp only [Command.apply, move_plot_up]
    split
    · exact ⟨h1, h2, h3⟩
    · refine ⟨?_, ?_, ?_⟩
      · intro p hp
        change p ∈ swapIdx s.plots i (i - 1) at hp
        exact h1 p (mem_swapIdx hp)
      · intro st hst p hp
        change st ∈ pushTrim s.undo_stack ⟨s.plots, s.composed_text⟩ at hst
        rcases mem_pushTrim hst with hm | he
        · exact h2 st hm p hp
        · rw [he] at hp; exact h1 p hp
      · intro st hst
        change st ∈ ([] : List AppState) at hst
        cases hst
  | move_plot_down i =>
    simp only [Command.apply, move_plot_down]
    split
    · exact ⟨h1, h2, h3⟩
    · refine ⟨?_, ?_, ?_⟩
      · intro p hp
        change p ∈ swapIdx s.plots i (i + 1) at hp
        exact h1 p (mem_swapIdx hp)
      · intro st hst p hp
        change st ∈ pushTrim s.undo_stack ⟨s.plots, s.composed_text⟩ at hst
        rcases mem_pushTrim hst with hm | he
        · exact h2 st hm p hp
        · rw [he] at hp; exact h1 p hp
      · intro st hst
        change st ∈ ([] : List AppState) at hst
        cases hst
  | compose =>
    refine ⟨h1, ?_, ?_⟩
    · intro st hst p hp
      change st ∈ pushTrim s.undo_stack ⟨s.plots, s.composed_text⟩ at hst
      rcases mem_pushTrim hst with hm | he
      · exact h2 st hm p hp
      · rw [he] at hp; exact h1 p hp
    · intro st hst
      change st ∈ ([] : List AppState) at hst
      cases hst
  | replace_all n r =>
    simp only [Command.apply, replace_all]
    split
    · exact ⟨h1, h2, h3⟩
    · refine ⟨?_, ?_, ?_⟩
      · intro p hp
        change p ∈ s.plots.map
          (fun q => { q with text := replaceSub n r q.text }) at hp
        rcases List.mem_map.mp hp with ⟨q, hq, rfl⟩
        exact h1 q hq
      · intro st hst p hp
        change st ∈ pushTrim s.undo_stack ⟨s.plots, s.composed_text⟩ at hst
        rcases mem_pushTrim hst with hm | he
        · exact h2 st hm p hp
        · rw [he] at hp; exact h1 p hp
      · intro st hst
        change st ∈ ([] : List AppState) at hst
        cases hst
  | undo =>
    simp only [Command.apply]
    cases hu : s.undo_stack.getLast? with
    | none => rw [undo_eq_none hu]; exact ⟨h1, h2, h3⟩
    | some st =>
      rw [undo_eq_some hu]
      refine ⟨?_, ?_, ?_⟩
      · intro p hp
        exact h2 st (List.mem_of_getLast?_eq_some hu) p hp
      · intro x hx p hp
        exact h2 x ((List.dropLast_sublist _).mem hx) p hp
      · intro x hx p hp
        rcases mem_pushTrim hx with hm | he
        · exact h3 x hm p hp
        · rw [he] at hp; exact h1 p hp
  | redo =>
    simp only [Command.apply]
    cases hu : s.redo_stack.getLast? with
    | none => rw [redo_eq_none hu]; exact ⟨h1, h2, h3⟩
    | some st =>
      rw [redo_eq_some hu]
      refine ⟨?_, ?_, ?_⟩
      · intro p hp
        exact h3 st (List.mem_of_getLast?_eq_some hu) p hp
      · intro x hx p hp
        rcases mem_pushTrim hx with hm | he
        · exact h2 x hm p hp
        · rw [he] at hp; exact h1 p hp
      · intro x hx p hp
        exact h3 x ((List.dropLast_sublist _).mem hx) p hp
  | new_document =>
    refine ⟨?_, ?_, ?_⟩
    · intro p hp
      change p ∈ [(⟨0, []⟩ : PlotFragment)] at hp
      change p.id < 1
      rcases List.mem_singleton.mp hp with rfl
      exact Nat.zero_lt_one
    · intro st hst
      change st ∈ ([] : List AppState) at hst
      cases hst
    · intro st hst
      change st ∈ ([] : List AppState) at hst
      cases hst
  | load_file inp => exact hc.elim

theorem IdInv_run (cs : List Command) :
    ∀ (s : App), (∀ c ∈ cs, c.noLoad) → IdInv s → IdInv (run s cs) := by
  induction cs with
  | nil => intro s _ h; exact h
  | cons c cs ih =>
    intro s hcs h
    have h1 : IdInv (c.apply s) := IdInv_apply c (hcs c (List.mem_cons_self _ _)) s h
    exact ih (c.apply s) (fun d hd => hcs d (List.mem_cons_of_mem _ hd)) h1

/-! ### Concrete documents used by the search/replace/compose examples -/

/-- A document whose single fragment holds `"aaa"` with search needle `"aa"`. -/
def appSearch : App :=
  { newApp with plots := [⟨0, [97, 97, 97]⟩], search_text := [97, 97] }

/-- A document whose fragment and composed text hold `"aaa"`, with needle
`"aa"` and replacement `"b"` entered in the replace dialog. -/
def appReplace : App :=
  { newApp with
    plots := [⟨0, [97, 97, 97]⟩]
    composed_text := [97, 97, 97]
    search_text := [97, 97]
    replace_text := [98] }

/-- A document with exactly the two fragments `"A"` and `"B"`. -/
def appAB : App :=
  { newApp with plots := [⟨0, [65]⟩, ⟨1, [66]⟩] }

/-- A document whose single fragment holds `"ああ"` (UTF-8 bytes
`E3 81 82 E3 81 82`) with the multi-byte search needle `"あ"`. -/
def appKana : App :=
  { newApp with
    plots := [⟨0, [227, 129, 130, 227, 129, 130]⟩]
    search_text := [227, 129, 130] }

/-! ### Claim C1 -/

/-- C1, counterexample: the claim "after every sequence of core commands the
fragment sequence is non-empty" is false as stated — loading a
well-deserialising file whose `plots` array is empty (`load_file` performs no
non-emptiness check) leaves the document with zero fragments. -/
theorem fragments_nonempty_cex :
    ¬ 1 ≤ (run newApp [Command.load_file (LoadInput.ok ⟨[], []⟩)]).plots.length := by
  decide

/-- C1 (amended): after every sequence of core commands in which every
successful `load_file` carries at least one fragment, the fragment sequence
is non-empty. -/
theorem fragments_nonempty (cs : List Command) (h : ∀ c ∈ cs, c.loadOk) :
    (run newApp cs).plots ≠ [] :=
  (NInv_run cs newApp h NInv_newApp).1

/-- C1, witness: a concrete command sequence (with a non-empty load)
keeping the fragment list non-empty. -/
theorem fragments_nonempty_witness :
    (run newApp [Command.add_plot_after 0,
      Command.load_file (LoadInput.ok ⟨[⟨5, []⟩], []⟩), Command.undo]).plots ≠ [] := by
  refine fragments_nonempty _ ?_
  intro c hc
  simp only [List.mem_cons, List.not_mem_nil, or_false] at hc
  rcases hc with rfl | rfl | rfl
  · trivial
  · exact List.cons_ne_nil _ _
  · trivial

/-! ### Claim C2 -/

/-- C2, counterexample: the claim "after every core operation `next_id`
strictly exceeds every live fragment id" is false as stated — a successful
`load_file` recomputes `next_id` from the loaded plots only (here dropping it
to 1), and the following `undo` restores the pre-load plots (containing id 1)
without restoring `next_id`. -/
theorem next_id_bound_cex :
    ¬ (∀ p ∈ (run newApp [Command.add_plot_after 0,
        Command.load_file (LoadInput.ok ⟨[⟨0, [120]⟩], []⟩), Command.undo]).plots,
      p.id < (run newApp [Command.add_plot_after 0,
        Command.load_file (LoadInput.ok ⟨[⟨0, [120]⟩], []⟩), Command.undo]).next_id) := by
  decide

/-- C2 (amended): after every sequence of core commands containing no
`load_file`, `next_id` is strictly greater than the id of every fragment in
`plots` (so ids handed to new fragments never collide with a live id); a
`load_file` that lowers `next_id` followed by `undo` can violate this. -/
theorem next_id_bound (cs : List Command) (h : ∀ c ∈ cs, c.noLoad) :
    ∀ p ∈ (run newApp cs).plots, p.id < (run newApp cs).next_id :=
  (IdInv_run cs newApp h IdInv_newApp).1

/-- C2, witness: after one insertion, the id bound holds at the concrete
fragment with id 1. -/
theorem next_id_bound_witness :
    (⟨1, []⟩ : PlotFragment).id <
      (run newApp [Command.add_plot_after 0]).next_id := by
  refine next_id_bound [Command.add_plot_after 0] ?_ ⟨1, []⟩ (by decide)
  intro c hc
  simp only [List.mem_cons, List.not_mem_nil, or_false] at hc
  rcases hc with rfl
  trivial

/-! ### Claim C3 -/

/-- C3: for every document state and every mutating command that actually
changes state (insert under the 1024 cap, removal with more than one
fragment, a move off its boundary, compose, replace-all with a non-empty
needle, a successful load), `undo` restores exactly the prior
`(plots, composed_text)` pair, and `redo` right after that `undo` restores
the pair that held just before the `undo`. -/
theorem undo_redo_roundtrip (s : App) (c : Command) (h : changesState c s) :
    (undo (c.apply s)).plots = s.plots ∧
    (undo (c.apply s)).composed_text = s.composed_text ∧
    (redo (undo (c.apply s))).plots = (c.apply s).plots ∧
    (redo (undo (c.apply s))).composed_text = (c.apply s).composed_text := by
  cases c with
  | add_plot_after i =>
    have h' : s.plots.length < MAX_PLOTS := h
    refine undo_redo_of_snapshot s _ ?_ ?_ <;>
      simp only [Command.apply, add_plot_after] <;> rw [if_neg (by omega)] <;> rfl
  | remove_plot i =>
    have h' : 1 < s.plots.length := h
    refine undo_redo_of_snapshot s _ ?_ ?_ <;>
      simp only [Command.apply, remove_plot] <;> rw [if_neg (by omega)] <;> rfl
  | move_plot_up i =>
    have h' : i ≠ 0 := h
    refine undo_redo_of_snapshot s _ ?_ ?_ <;>
      simp only [Command.apply, move_plot_up] <;> rw [if_neg h'] <;> rfl
  | move_plot_down i =>
    have h' : i < s.plots.length - 1 := h
    refine undo_redo_of_snapshot s _ ?_ ?_ <;>
      simp only [Command.apply, move_plot_down] <;> rw [if_neg (by omega)] <;> rfl
  | compose => exact undo_redo_of_snapshot s _ rfl rfl
  | replace_all n r =>
    have h' : n ≠ [] := h
    refine undo_redo_of_snapshot s _ ?_ ?_ <;>
      simp only [Command.apply, replace_all] <;> rw [if_neg h'] <;> rfl
  | undo => exact h.elim
  | redo => exact h.elim
  | new_document => exact h.elim
  | load_file inp =>
    cases inp with
    | ioError m => exact h.elim
    | deserError m => exact h.elim
    | ok d => exact undo_redo_of_snapshot s _ rfl rfl

/-- C3, witness: the round trip at the initial document and `compose`. -/
theorem undo_redo_roundtrip_witness :
    (undo (Command.compose.apply newApp)).plots = newApp.plots ∧
    (undo (Command.compose.apply newApp)).composed_text = newApp.composed_text ∧
    (redo (undo (Command.compose.apply newApp))).plots = (Command.compose.apply newApp).plots ∧
    (redo (undo (Command.compose.apply newApp))).composed_text =
      (Command.compose.apply newApp).composed_text :=
  undo_redo_roundtrip newApp Command.compose trivial

/-! ### Claim C4 -/

/-- C4: when `load_file` fails — unreadable file (I/O error) or content that
does not deserialise — it returns the error and the entire document state is
the unchanged original; no partial load occurs. -/
theorem load_file_failure_unchanged (s : App) (m : Txt) :
    load_file (LoadInput.ioError m) s = (Except.error m, s) ∧
    load_file (LoadInput.deserError m) s = (Except.error m, s) :=
  ⟨rfl, rfl⟩

/-! ### Claim C5 -/

/-- C5, counterexample: the claim "search returns, for each fragment, the
byte-offset matches of the forward scan (overlapping occurrences reported)"
is false as stated — with the multi-byte needle `"あ"` over fragment text
`"ああ"` the scan does find a first match (second conjunct), but the resume
slice `text[match_start + 1 ..]` then hits byte offset 1, a continuation
byte, and the program panics instead of returning the two matches. -/
theorem search_overlap_cex :
    search appKana = none ∧
    findSub [227, 129, 130] [227, 129, 130, 227, 129, 130] = some 0 := by
  constructor
  · simp [search, appKana, newApp, searchPlots, occsFrom, findSub, is_char_boundary,
      List.isPrefixOf]
  · rfl

/-- C5 (amended): search with an empty needle returns (without panicking)
a state with no results; with a non-empty needle, whenever the
resume-at-`match_start + 1` scan completes — no resume offset lands inside a
multi-byte character — it reports a match exactly at every offset where the
needle occurs (overlapping occurrences included), and on the concrete
document with fragment text `"aaa"` and needle `"aa"` it returns exactly the
two results `[0,2)` and `[1,3)`.  When a resume offset is not a char
boundary (any needle whose first character is multi-byte, after its first
match) the program panics instead of returning. -/
theorem search_spec :
    (∀ s : App, s.search_text = [] →
      search s = some { s with search_results := [], current_search_index := 0 }) ∧
    (∀ (n hay : Txt) (j : Nat) (l : List Nat), n ≠ [] → occsFrom n hay 0 = some l →
      (j ∈ l ↔ n.isPrefixOf (hay.drop j) = true)) ∧
    search appSearch = some { appSearch with
      search_results :=
        [⟨SearchLocation.Plot, some 0, 0, 2⟩, ⟨SearchLocation.Plot, some 0, 1, 3⟩]
      current_search_index := 0 } := by
  refine ⟨?_, ?_, ?_⟩
  · intro s h
    simp [search, h]
  · intro n hay j l hn hl
    simpa using occsFrom_mem hn hay.length hay le_rfl 0 j l hl
  · have ho : occsFrom [97, 97] [97, 97, 97] 0 = some [0, 1] := by
      simp [occsFrom, findSub, is_char_boundary, List.isPrefixOf]
    have hc : occsFrom [97, 97] ([] : Txt) 0 = some [] := by
      simp [occsFrom, findSub, List.isPrefixOf]
    simp [search, appSearch, newApp, searchPlots, ho, hc]

/-- C5, witness: empty-needle search on the initial document succeeds with no
results, and a completed concrete scan (needle `"a"` in `"a"`) reports its
occurrence. -/
theorem search_spec_witness :
    (search newApp = some { newApp with search_results := [], current_search_index := 0 }) ∧
    (0 ∈ [0] ↔ ([97] : Txt).isPrefixOf (([97] : Txt).drop 0) = true) :=
  ⟨search_spec.1 newApp rfl,
   search_spec.2.1 [97] [97] 0 [0] (by decide)
     (by simp [occsFrom, findSub, is_char_boundary, List.isPrefixOf])⟩

/-! ### Claim C6 -/

/-- C6: replace-all with an empty needle is a no-op (the state is returned
untouched); on the concrete document whose fragment and composed text are
`"aaa"` with needle `"aa"` and replacement `"b"`, both texts become `"ba"`
(non-overlapping left-to-right consumption) and the stored search results are
cleared. -/
theorem replace_all_spec :
    (∀ s : App, s.search_text = [] → replace_all s = s) ∧
    (replace_all appReplace).plots = [⟨0, [98, 97]⟩] ∧
    (replace_all appReplace).composed_text = [98, 97] ∧
    (replace_all appReplace).search_results = [] := by
  have hr : replaceSub [97, 97] [98] [97, 97, 97] = [98, 97] := by
    simp [replaceSub, findSub, List.isPrefixOf]
  refine ⟨?_, ?_, ?_, ?_⟩
  · intro s h
    simp [replace_all, h]
  · simp [replace_all, appReplace, newApp, save_state_for_undo, hr]
  · simp [replace_all, appReplace, newApp, save_state_for_undo, hr]
  · simp [replace_all, appReplace, newApp, save_state_for_undo]

/-- C6, witness: replace-all on the initial document (empty needle) is the
identity. -/
theorem replace_all_spec_witness : replace_all newApp = newApp :=
  replace_all_spec.1 newApp rfl

/-! ### Claim C7 -/

/-- C7: compose joins the fragments' texts in order with the literal
separator `"\n\n---\n\n"` between consecutive fragments and none at the
ends; for a two-fragment document `[p, q]` the result is exactly
`p.text ++ separator ++ q.text`. -/
theorem compose_spec :
    (∀ s : App, (compose s).composed_text =
      List.intercalate SEPARATOR (s.plots.map (·.text))) ∧
    (∀ (s : App) (p q : PlotFragment), s.plots = [p, q] →
      (compose s).composed_text = p.text ++ SEPARATOR ++ q.text) := by
  refine ⟨fun s => rfl, ?_⟩
  intro s p q hpq
  show List.intercalate SEPARATOR (s.plots.map (·.text)) = _
  rw [hpq]
  simp [List.intercalate]

/-- C7, witness: composing the concrete fragments `["A", "B"]` yields
exactly the bytes of `"A\n\n---\n\nB"`. -/
theorem compose_spec_witness :
    (compose appAB).composed_text = [65, 10, 10, 45, 45, 45, 10, 10, 66] := by
  have h := compose_spec.2 appAB ⟨0, [65]⟩ ⟨1, [66]⟩ rfl
  simpa [SEPARATOR] using h

/-! ### Claim C8 -/

/-- C8: every mutating command that pushes an undo snapshot (reaches
`save_state_for_undo`) leaves the redo stack empty — in particular any such
command issued after an `undo` discards all pending redo entries. -/
theorem snapshot_clears_redo (s : App) (c : Command) (h : pushesSnapshot c s) :
    (c.apply s).redo_stack = [] := by
  cases c with
  | add_plot_after i =>
    have h' : s.plots.length < MAX_PLOTS := h
    simp only [Command.apply, add_plot_after]
    rw [if_neg (by omega)]
    rfl
  | remove_plot i =>
    have h' : 1 < s.plots.length := h
    simp only [Command.apply, remove_plot]
    rw [if_neg (by omega)]
    rfl
  | move_plot_up i =>
    have h' : i ≠ 0 := h
    simp only [Command.apply, move_plot_up]
    rw [if_neg h']
    rfl
  | move_plot_down i =>
    have h' : i < s.plots.length - 1 := h
    simp only [Command.apply, move_plot_down]
    rw [if_neg (by omega)]
    rfl
  | compose => rfl
  | replace_all n r =>
    have h' : n ≠ [] := h
    simp only [Command.apply, replace_all]
    rw [if_neg h']
    rfl
  | undo => exact h.elim
  | redo => exact h.elim
  | new_document => rfl
  | load_file inp =>
    cases inp with
    | ioError m => exact h.elim
    | deserError m => exact h.elim
    | ok d => rfl

/-- C8, witness: `compose` at the initial document leaves the redo stack
empty. -/
theorem snapshot_clears_redo_witness : (Command.compose.apply newApp).redo_stack = [] :=
  snapshot_clears_redo newApp Command.compose trivial

/-! ### Claim C9 -/

/-- C9: every mutating command that changes state sets the dirty flag, a
successful save clears it, and `undo`/`redo` leave it unchanged (even when
they restore the last-saved state). -/
theorem dirty_flag_spec :
    (∀ (s : App) (c : Command), changesState c s → (c.apply s).is_dirty = true) ∧
    (∀ s : App, ((save_file true s).2).is_dirty = false) ∧
    (∀ s : App, (undo s).is_dirty = s.is_dirty) ∧
    (∀ s : App, (redo s).is_dirty = s.is_dirty) := by
  refine ⟨?_, fun s => rfl, ?_, ?_⟩
  · intro s c h
    cases c with
    | add_plot_after i =>
      have h' : s.plots.length < MAX_PLOTS := h
      simp only [Command.apply, add_plot_after]
      rw [if_neg (by omega)]
      rfl
    | remove_plot i =>
      have h' : 1 < s.plots.length := h
      simp only [Command.apply, remove_plot]
      rw [if_neg (by omega)]
      rfl
    | move_plot_up i =>
      have h' : i ≠ 0 := h
      simp only [Command.apply, move_plot_up]
      rw [if_neg h']
      rfl
    | move_plot_down i =>
      have h' : i < s.plots.length - 1 := h
      simp only [Command.apply, move_plot_down]
      rw [if_neg (by omega)]
      rfl
    | compose => rfl
    | replace_all n r =>
      have h' : n ≠ [] := h
      simp only [Command.apply, replace_all]
      rw [if_neg h']
      rfl
    | undo => exact h.elim
    | redo => exact h.elim
    | new_document => exact h.elim
    | load_file inp =>
      cases inp with
      | ioError m => exact h.elim
      | deserError m => exact h.elim
      | ok d => rfl
  · intro s
    cases hu : s.undo_stack.getLast? with
    | none => rw [undo_eq_none hu]
    | some st => rw [undo_eq_some hu]
  · intro s
    cases hu : s.redo_stack.getLast? with
    | none => rw [redo_eq_none hu]
    | some st => rw [redo_eq_some hu]

/-- C9, witness: `compose` at the initial document marks it dirty, saving
clears the flag, and `undo` leaves it alone. -/
theorem dirty_flag_spec_witness :
    (Command.compose.apply newApp).is_dirty = true ∧
    ((save_file true newApp).2).is_dirty = false ∧
    (undo newApp).is_dirty = newApp.is_dirty :=
  ⟨dirty_flag_spec.1 newApp Command.compose trivial,
   dirty_flag_spec.2.1 newApp,
   dirty_flag_spec.2.2.1 newApp⟩

/-! ### Claim C10 -/

/-- C10: `search` never modifies the document or its history — an empty
needle always returns, and whenever the call returns (the scan loop can
panic on a multi-byte needle, in which case there is no resulting state to
observe) plots, composed text, `next_id`, the current file path, both
stacks, the needle and replacement fields and the dirty flag are all
unchanged; it only rewrites the stored search results (empty when the needle
is empty, cleared before the empty-needle early return) and resets the
current search index to 0. -/
theorem search_frame (s : App) :
    (s.search_text = [] →
      search s = some { s with search_results := [], current_search_index := 0 }) ∧
    (∀ s', search s = some s' →
      s'.plots = s.plots ∧
      s'.composed_text = s.composed_text ∧
      s'.next_id = s.next_id ∧
      s'.current_file_path = s.current_file_path ∧
      s'.undo_stack = s.undo_stack ∧
      s'.redo_stack = s.redo_stack ∧
      s'.search_text = s.search_text ∧
      s'.replace_text = s.replace_text ∧
      s'.is_dirty = s.is_dirty ∧
      s'.current_search_index = 0 ∧
      (s.search_text = [] → s'.search_results = [])) := by
  simp only [search]
  split
  · refine ⟨fun _ => rfl, ?_⟩
    intro s' hs
    injection hs with hs'
    subst hs'
    exact ⟨rfl, rfl, rfl, rfl, rfl, rfl, rfl, rfl, rfl, rfl, fun _ => rfl⟩
  · rename_i h
    refine ⟨fun he => absurd he h, ?_⟩
    intro s' hs
    cases hp : searchPlots s.search_text s.plots.enum with
    | none => rw [hp] at hs; exact Option.noConfusion hs
    | some pr =>
      rw [hp] at hs
      cases hc : occsFrom s.search_text s.composed_text 0 with
      | none => rw [hc] at hs; exact Option.noConfusion hs
      | some co =>
        rw [hc] at hs
        injection hs with hs'
        subst hs'
        exact ⟨rfl, rfl, rfl, rfl, rfl, rfl, rfl, rfl, rfl, rfl, fun he => absurd he h⟩

/-- C10, witness: the empty-needle search at the initial document returns it
with cleared results and reset index, everything else untouched. -/
theorem search_frame_witness :
    search newApp = some { newApp with search_results := [], current_search_index := 0 } :=
  (search_frame newApp).1 rfl

end StoryComposer
